import Mathlib

/-!
Verification of the sentence-level detection/aggregation policy and the
humanizer noise-injection step of the AI text humanizer + detector API.

The definitions below are shallow embeddings of the JavaScript source:
strings are modelled through their character lists (`String.data`), the
`Math.random()` indices of the noise injector are explicit `Nat`
parameters, JavaScript numbers in score arithmetic are `ℤ`/`ℚ` with
`Math.round x` modelled as `⌊x + 1/2⌋`, and HTTP results are modelled as
`Except` (an `.error` is the endpoint's 400/short-circuit answer).
-/

/-! ## Input validation (src/unnamed/part_000 lines 129-142, src/server.js lines 37-46) -/

/-- JavaScript `!text || !text.trim()`: the text is empty or whitespace-only. -/
def isBlank (text : String) : Bool := text.data.all Char.isWhitespace

/-- Counts maximal whitespace-free runs: the length of
`text.trim().split(/\s+/)` for text with at least one non-space character. -/
def wordCountAux : Bool → List Char → Nat
  | _, [] => 0
  | inWord, c :: cs =>
    if c.isWhitespace then wordCountAux false cs
    else (if inWord then 0 else 1) + wordCountAux true cs

/-- `text.trim().split(/\s+/).length` of the source's validators. -/
def wordCount (text : String) : Nat := wordCountAux false text.data

/-- `MAX_WORDS` of the humanize pipeline (part_000 line 15). -/
def HUMANIZER_MAX_WORDS : Nat := 200

/-- The detect pipeline's local `MAX_WORDS` (part_000 line 136). -/
def DETECTOR_MAX_WORDS : Nat := 800

/-- The common validation prefix of both endpoints: missing/blank text is a
400, a word count over the limit is a 400, otherwise the word count is
returned for the response metadata. -/
def validateText (maxWords : Nat) (text : String) : Except String Nat :=
  if isBlank text then .error "Text is required"
  else if maxWords < wordCount text then .error "Word limit exceeded"
  else .ok (wordCount text)

/-- HTTP status of an embedded endpoint result: `.error` answers are the
source's `res.status(400)` responses. -/
def httpStatus {α : Type} : Except String α → Nat
  | .error _ => 400
  | .ok _ => 200

/-! ## Per-sentence judgments and the smart aggregator (part_000 lines 150-261) -/

/-- A parsed provider classification `{ai, human, reason}`. -/
structure Judgment where
  ai : ℤ
  human : ℤ
  reason : String
deriving DecidableEq

/-- One entry of the `/detect` response's `sentences` array. -/
structure SentenceResult where
  sentence : String
  ai : ℤ
  human : ℤ
  reason : String
  highlight : String
deriving DecidableEq

/-- The `overall` object of the `/detect` response. -/
structure Overall where
  ai_probability : ℤ
  human_probability : ℤ
  verdict : String
deriving DecidableEq

/-- The `/detect` response body (its score-carrying part). -/
structure DetectResponse where
  overall : Overall
  sentences : List SentenceResult
deriving DecidableEq

/-- `Math.round` for the non-negative values this code feeds it. -/
def jsRound (x : ℚ) : ℤ := Int.floor (x + 1/2)

/-- `results.length || 1` (part_000 line 222). -/
def totalOf (n : Nat) : Nat := if n = 0 then 1 else n

/-- `aiHeavy` counter: sentences with `aiScore >= 70` (part_000 line 204). -/
def aiHeavyCount (ais : List ℤ) : Nat := ais.countP (fun a => decide (70 ≤ a))

/-- `mixed` counter: `40 <= aiScore < 70` (part_000 line 205). -/
def mixedCount (ais : List ℤ) : Nat := ais.countP (fun a => decide (40 ≤ a) && decide (a < 70))

/-- `human` counter: `aiScore < 40` (part_000 line 206). -/
def humanCount (ais : List ℤ) : Nat := ais.countP (fun a => decide (a < 40))

/-- The smart overall logic (part_000 lines 227-242): suppression branch when
the document is mostly human, escalation branch when AI-heavy sentences
dominate, weighted blend otherwise. -/
def overallAI (ais : List ℤ) : ℤ :=
  if (8 : ℚ)/10 ≤ (humanCount ais : ℚ) / (totalOf ais.length : ℚ) then
    min 5 (jsRound ((aiHeavyCount ais : ℚ) / (totalOf ais.length : ℚ) * 10))
  else if (6 : ℚ)/10 ≤ (aiHeavyCount ais : ℚ) / (totalOf ais.length : ℚ) then
    jsRound (70 + (aiHeavyCount ais : ℚ) / (totalOf ais.length : ℚ) * 30)
  else
    jsRound (((aiHeavyCount ais : ℚ) * 80 + (mixedCount ais : ℚ) * 50 + (humanCount ais : ℚ) * 20)
      / (totalOf ais.length : ℚ))

/-- The verdict label (part_000 lines 253-258). -/
def verdictOf (o : ℤ) : String :=
  if 70 ≤ o then "Likely AI-generated"
  else if 35 ≤ o then "Possibly AI-generated"
  else "Likely Human-written"

/-- The defaults set before the provider call (part_000 lines 157-159); they
survive when the call throws or its output fails to parse. -/
def defaultJudgment : Judgment :=
  { ai := 70, human := 30, reason := "Neutral structured sentence" }

/-- One iteration of the classification loop (part_000 lines 156-219): a
`none` provider outcome leaves the defaults in place. -/
def judgeOutcome (s : String) (o : Option Judgment) : SentenceResult :=
  { sentence := s
    ai := (o.getD defaultJudgment).ai
    human := (o.getD defaultJudgment).human
    reason := (o.getD defaultJudgment).reason
    highlight :=
      if 70 ≤ (o.getD defaultJudgment).ai then "high"
      else if 40 ≤ (o.getD defaultJudgment).ai then "medium"
      else "low" }

/-- The `results` array after the classification loop. -/
def detectResults (ss : List String) (provider : String → Option Judgment) : List SentenceResult :=
  ss.map (fun s => judgeOutcome s (provider s))

/-- The successful `/detect` response body (part_000 lines 246-261). -/
def runDetect (ss : List String) (provider : String → Option Judgment) : DetectResponse :=
  { overall :=
      { ai_probability := overallAI ((detectResults ss provider).map (fun r => r.ai))
        human_probability := 100 - overallAI ((detectResults ss provider).map (fun r => r.ai))
        verdict := verdictOf (overallAI ((detectResults ss provider).map (fun r => r.ai))) }
    sentences := detectResults ss provider }

/-- The strict revision's average-based overall score
(src/server.js lines 460-462): `results.length ? Math.round(totalAI/length) : 0`. -/
def strictAvgAI (ais : List ℤ) : ℤ :=
  if ais.length = 0 then 0 else jsRound ((ais.sum : ℚ) / (ais.length : ℚ))

/-- The strict revision's `overall` object (src/server.js lines 464-479). -/
def strictOverall (ais : List ℤ) : Overall :=
  { ai_probability := strictAvgAI ais
    human_probability := 100 - strictAvgAI ais
    verdict :=
      if 75 ≤ strictAvgAI ais then "Likely AI-generated"
      else if 45 ≤ strictAvgAI ais then "Possibly AI-generated"
      else "Likely Human-written" }

/-! ## Sentence segmentation (part_000 lines 144-148):
`text.split(/(?<=[.!?])\s+/).map(s => s.trim()).filter(s => s.length > 12)`.
Lengths are counted in characters (the JS source counts UTF-16 units; the
two agree outside astral code points). -/

/-- The lookbehind class `[.!?]`. -/
def isPunctC (c : Char) : Bool := c == '.' || c == '!' || c == '?'

/-- Whether the reversed current segment ends in boundary punctuation. -/
def headIsPunct : List Char → Bool
  | [] => false
  | c :: _ => isPunctC c

/-- Whether a segment's last character is boundary punctuation. -/
def lastIsPunct : List Char → Bool
  | [] => false
  | [a] => isPunctC a
  | _ :: b :: t => lastIsPunct (b :: t)

/-- Whether the text still contains a split point: a `[.!?]` character
immediately followed by whitespace. -/
def hasBoundary : List Char → Bool
  | [] => false
  | [_] => false
  | a :: b :: t => (isPunctC a && b.isWhitespace) || hasBoundary (b :: t)

/-- The regex split `/(?<=[.!?])\s+/` as a left-to-right scan. State
`some cur` holds the current segment's characters in reverse; state `none`
is consuming the whitespace run of a match (the greedy `\s+`). -/
def segStep : Option (List Char) → List Char → List (List Char)
  | some cur, [] => [cur.reverse]
  | none, [] => [[]]
  | some cur, c :: rest =>
    if c.isWhitespace && headIsPunct cur then cur.reverse :: segStep none rest
    else segStep (some (c :: cur)) rest
  | none, c :: rest =>
    if c.isWhitespace then segStep none rest else segStep (some [c]) rest

/-- The raw result of `text.split(/(?<=[.!?])\s+/)`. -/
def rawSegs (l : List Char) : List (List Char) := segStep (some []) l

/-- JavaScript `s.trim()` on a character list. -/
def trimChars (l : List Char) : List Char :=
  ((l.dropWhile Char.isWhitespace).reverse.dropWhile Char.isWhitespace).reverse

/-- The detect pipeline's `sentences` value: split, trim, keep length > 12. -/
def sentenceSegments (text : String) : List String :=
  ((rawSegs text.data).map (fun raw => String.mk (trimChars raw))).filter
    (fun s => decide (12 < s.data.length))

/-- Soundness predicate for the split: `SplitOk l segs` says `segs` carves
`l` exactly at the `[.!?]`-then-whitespace boundaries: the segments
concatenated with the consumed whitespace runs rebuild `l` in order, every
consumed run follows a segment ending in `.`, `!` or `?`, every run is
maximal (the remaining text starts with a non-whitespace character), and no
segment retains an internal boundary. -/
inductive SplitOk : List Char → List (List Char) → Prop where
  | last (s : List Char) (hs : hasBoundary s = false) : SplitOk s [s]
  | cons (s w rest : List Char) (segs : List (List Char))
      (hs : hasBoundary s = false)
      (hlast : lastIsPunct s = true)
      (hw : w ≠ [] ∧ ∀ ch ∈ w, ch.isWhitespace = true)
      (hnext : ∀ ch, rest.head? = some ch → ch.isWhitespace = false)
      (htail : SplitOk rest segs) :
      SplitOk (s ++ (w ++ rest)) (s :: segs)

/-! ## The `/detect` endpoint wrapper and the trust shortcut -/

/-- Modelled from the spec: the near-zero overall `ai_probability` the
trust shortcut forces ("the configured trusted floor").  src/server.js
line 123 destructures `trusted_human` from the request body, but the bypass
branch itself is not in the repository's files; §4.3 of the spec fixes its
behaviour. -/
def TRUSTED_AI_FLOOR : ℤ := 2

/-- Modelled from the spec: the fixed low-AI judgment reported for every
sentence when `trusted_human = true` (the bypass code is absent from src/;
only its `trusted_human` destructuring survives at src/server.js line 123). -/
def trustedJudgment (s : String) : SentenceResult :=
  { sentence := s, ai := TRUSTED_AI_FLOOR, human := 100 - TRUSTED_AI_FLOOR,
    reason := "Verified humanized output", highlight := "low" }

/-- Modelled from the spec: the whole `/detect` response of the
`trusted_human` bypass — fixed low-AI sentence judgments, overall forced to
the trusted floor, verdict `"Human-written (Verified)"`. -/
def trustedResponse (ss : List String) : DetectResponse :=
  { overall :=
      { ai_probability := TRUSTED_AI_FLOOR
        human_probability := 100 - TRUSTED_AI_FLOOR
        verdict := "Human-written (Verified)" }
    sentences := ss.map trustedJudgment }

/-- The `/detect` endpoint: validation (part_000 lines 129-142), then the
trust shortcut (modelled from the spec, see `trustedResponse`), then the
per-sentence classification pipeline (part_000 lines 144-261). -/
def detectEndpoint (trusted : Bool) (text : String)
    (provider : String → Option Judgment) : Except String DetectResponse :=
  if isBlank text then .error "Text is required"
  else if DETECTOR_MAX_WORDS < wordCount text then .error "Maximum 800 words allowed"
  else if trusted then .ok (trustedResponse (sentenceSegments text))
  else .ok (runDetect (sentenceSegments text) provider)

/-! ## Human-noise injection (part_000 lines 76-105, src/server.js lines 75-104) -/

/-- The filler phrases (part_000 lines 76-83). -/
def fillers : List String :=
  ["Honestly,", "In simple terms,", "That’s the thing—", "If you think about it,",
   "In day-to-day use,", ""]

/-- The ending phrases (part_000 lines 85-91). -/
def endings : List String :=
  ["", " It just works.", " Nothing too fancy.", " Pretty straightforward.", ""]

/-- Helper of `splitDotSpace`: prepend a character to the first segment. -/
def consHead (c : Char) : List (List Char) → List (List Char)
  | [] => [[c]]
  | s :: ss => (c :: s) :: ss

/-- JavaScript `text.split(". ")`: split on the literal two-character
separator, left to right, non-overlapping. -/
def splitDotSpace : List Char → List (List Char)
  | [] => [[]]
  | '.' :: ' ' :: rest => [] :: splitDotSpace rest
  | c :: rest => consHead c (splitDotSpace rest)

/-- JavaScript `sentences.join(". ")`. -/
def joinDotL : List (List Char) → List Char
  | [] => []
  | [s] => s
  | s :: ss => s ++ '.' :: ' ' :: joinDotL ss

/-- JavaScript `sentences[i] = f(sentences[i])` (no-op out of range; the
source always indexes in range). -/
def modifyAt : Nat → (List Char → List Char) → List (List Char) → List (List Char)
  | _, _, [] => []
  | 0, f, s :: ss => f s :: ss
  | i + 1, f, s :: ss => s :: modifyAt i f ss

/-- JavaScript `s.replace(",", "")`: remove the first comma, if any. -/
def removeFirstCommaL : List Char → List Char
  | [] => []
  | c :: cs => if c = ',' then cs else c :: removeFirstCommaL cs

/-- The characters the filler choice `f` puts in front of the first
segment: `start` plus the template literal's space, or nothing when the
empty filler is drawn. -/
def fillerPre (f : Nat) : List Char :=
  if (fillers.getD f "").data = [] then [] else (fillers.getD f "").data ++ [' ']

/-- `injectHumanNoise` (part_000 lines 93-105) with the three
`Math.floor(Math.random() * _)` draws made explicit: `f` indexes `fillers`,
`i` the segment losing its first comma, `e` indexes `endings`. -/
def injectHumanNoise (f i e : Nat) (text : String) : String :=
  if (splitDotSpace text.data).length < 3 then text
  else
    String.mk
      (joinDotL
        (modifyAt i removeFirstCommaL
          (if (fillers.getD f "").data = [] then splitDotSpace text.data
           else modifyAt 0 (fun s => (fillers.getD f "").data ++ ' ' :: s)
             (splitDotSpace text.data)))
       ++ (endings.getD e "").data)

/-- The 200-word sample used by the word-limit witness. -/
def sampleWords (n : Nat) : String := String.mk (List.replicate n ['w', ' ']).flatten

/-! ## Validation lemmas and claim C8 -/

theorem validateText_ok_iff (m : Nat) (text : String) (h : isBlank text = false) :
    (validateText m text = .ok (wordCount text) ↔ wordCount text ≤ m) ∧
    (httpStatus (validateText m text) = 400 ↔ m < wordCount text) := by
  unfold validateText
  rw [h]
  by_cases hc : m < wordCount text
  · exact ⟨by simp [hc], by simp [hc, httpStatus]⟩
  · exact ⟨by simp [hc]; omega, by simp [hc, httpStatus]⟩

/-- C8: with non-blank text, validation succeeds exactly up to the
configured maximum word count (humanize: 200, detect: 800, two independent
constants) and answers HTTP 400 exactly beyond it; in particular a text of
exactly the maximum passes and one of maximum + 1 fails. -/
theorem word_limit_boundary (text : String) (h : isBlank text = false) :
    (validateText HUMANIZER_MAX_WORDS text = .ok (wordCount text) ↔
      wordCount text ≤ HUMANIZER_MAX_WORDS) ∧
    (httpStatus (validateText HUMANIZER_MAX_WORDS text) = 400 ↔
      HUMANIZER_MAX_WORDS < wordCount text) ∧
    (validateText DETECTOR_MAX_WORDS text = .ok (wordCount text) ↔
      wordCount text ≤ DETECTOR_MAX_WORDS) ∧
    (httpStatus (validateText DETECTOR_MAX_WORDS text) = 400 ↔
      DETECTOR_MAX_WORDS < wordCount text) ∧
    HUMANIZER_MAX_WORDS = 200 ∧ DETECTOR_MAX_WORDS = 800 :=
  ⟨(validateText_ok_iff HUMANIZER_MAX_WORDS text h).1,
   (validateText_ok_iff HUMANIZER_MAX_WORDS text h).2,
   (validateText_ok_iff DETECTOR_MAX_WORDS text h).1,
   (validateText_ok_iff DETECTOR_MAX_WORDS text h).2, rfl, rfl⟩

set_option maxRecDepth 40000 in
/-- C8 witness: a 200-word text passes the humanize validator, a 201-word
text fails it with a 400; an 800-word text passes the detect validator, an
801-word text fails it with a 400. -/
theorem word_limit_boundary_witness :
    isBlank (sampleWords 200) = false ∧
    wordCount (sampleWords 200) = 200 ∧
    validateText HUMANIZER_MAX_WORDS (sampleWords 200) = .ok (wordCount (sampleWords 200)) ∧
    httpStatus (validateText HUMANIZER_MAX_WORDS (sampleWords 201)) = 400 ∧
    wordCount (sampleWords 800) = 800 ∧
    validateText DETECTOR_MAX_WORDS (sampleWords 800) = .ok (wordCount (sampleWords 800)) ∧
    httpStatus (validateText DETECTOR_MAX_WORDS (sampleWords 801)) = 400 :=
  ⟨by decide, by decide,
   (word_limit_boundary (sampleWords 200) (by decide)).1.mpr (by decide),
   (word_limit_boundary (sampleWords 201) (by decide)).2.1.mpr (by decide),
   by decide,
   (word_limit_boundary (sampleWords 800) (by decide)).2.2.1.mpr (by decide),
   (word_limit_boundary (sampleWords 801) (by decide)).2.2.2.1.mpr (by decide)⟩

/-! ## Claim C3: ai_probability + human_probability = 100 -/

/-- C3: every overall object the detect code builds pairs `ai_probability`
with `100 - ai_probability`: in the smart aggregator's response, in the
strict revision's averaged response, and in the trusted bypass, the two
probabilities always sum to exactly 100. -/
theorem detect_probabilities_sum (ss : List String) (provider : String → Option Judgment)
    (ais : List ℤ) :
    (runDetect ss provider).overall.ai_probability +
      (runDetect ss provider).overall.human_probability = 100 ∧
    (strictOverall ais).ai_probability + (strictOverall ais).human_probability = 100 ∧
    (trustedResponse ss).overall.ai_probability +
      (trustedResponse ss).overall.human_probability = 100 := by
  refine ⟨?_, ?_, ?_⟩ <;> simp [runDetect, strictOverall, trustedResponse]

/-! ## Claim C5: per-sentence provider failure falls back, batch survives -/

/-- C5: a failed (`none`) provider outcome for sentence `i` yields exactly
the default judgment `ai=70, human=30, reason="Neutral structured
sentence"` at position `i`, while the result list still has one entry per
sentence and every successfully classified sentence keeps its provider
judgment — one sentence's failure never aborts the batch. -/
theorem detect_sentence_fallback (ss : List String) (provider : String → Option Judgment)
    (i : Nat) (hi : i < ss.length) (hfail : provider (ss.get ⟨i, hi⟩) = none) :
    (runDetect ss provider).sentences.length = ss.length ∧
    (runDetect ss provider).sentences[i]? =
      some { sentence := ss.get ⟨i, hi⟩, ai := 70, human := 30,
             reason := "Neutral structured sentence", highlight := "high" } ∧
    ∀ (j : Nat) (hj : j < ss.length) (jd : Judgment),
      provider (ss.get ⟨j, hj⟩) = some jd →
      (runDetect ss provider).sentences[j]? =
        some { sentence := ss.get ⟨j, hj⟩, ai := jd.ai, human := jd.human,
               reason := jd.reason,
               highlight := if 70 ≤ jd.ai then "high"
                 else if 40 ≤ jd.ai then "medium" else "low" } := by
  refine ⟨by simp [runDetect, detectResults], ?_, ?_⟩
  · have hfail' : provider ss[i] = none := hfail
    have hget : ss[i]? = some ss[i] := List.getElem?_eq_getElem hi
    simp [runDetect, detectResults, List.getElem?_map, hget, judgeOutcome, hfail',
      defaultJudgment, List.get_eq_getElem]
  · intro j hj jd hjd
    have hjd' : provider ss[j] = some jd := hjd
    have hget : ss[j]? = some ss[j] := List.getElem?_eq_getElem hj
    simp [runDetect, detectResults, List.getElem?_map, hget, judgeOutcome, hjd',
      List.get_eq_getElem]

/-- C5 witness: with a provider that fails on the single sentence, the
batch still produces one defaulted judgment. -/
theorem detect_sentence_fallback_witness :
    (fun (_ : String) => (none : Option Judgment)) "The system works well today." = none ∧
    (runDetect ["The system works well today."] (fun _ => none)).sentences.length = 1 ∧
    (runDetect ["The system works well today."] (fun _ => none)).sentences[0]? =
      some { sentence := "The system works well today.", ai := 70, human := 30,
             reason := "Neutral structured sentence", highlight := "high" } :=
  ⟨rfl,
   (detect_sentence_fallback ["The system works well today."] (fun _ => none) 0
     (by decide) rfl).1,
   (detect_sentence_fallback ["The system works well today."] (fun _ => none) 0
     (by decide) rfl).2.1⟩

/-! ## Claim C2: the trusted_human bypass -/

/-- C2: a `/detect` request carrying `trusted_human = true` that passes
validation never reaches the classifier: the response is the fixed trusted
one for every text and every provider behaviour — verdict
`"Human-written (Verified)"`, overall `ai_probability` forced to the
near-zero trusted floor, and every sentence reported with the fixed low-AI
judgment. -/
theorem detect_trusted_bypass (text : String) (provider : String → Option Judgment)
    (h1 : isBlank text = false) (h2 : wordCount text ≤ DETECTOR_MAX_WORDS) :
    detectEndpoint true text provider = .ok (trustedResponse (sentenceSegments text)) ∧
    (trustedResponse (sentenceSegments text)).overall.verdict = "Human-written (Verified)" ∧
    (trustedResponse (sentenceSegments text)).overall.ai_probability = TRUSTED_AI_FLOOR ∧
    ∀ r ∈ (trustedResponse (sentenceSegments text)).sentences,
      r.ai = TRUSTED_AI_FLOOR ∧ r.human = 100 - TRUSTED_AI_FLOOR ∧ r.highlight = "low" := by
  refine ⟨?_, rfl, rfl, ?_⟩
  · have hn : ¬ DETECTOR_MAX_WORDS < wordCount text := by omega
    simp [detectEndpoint, h1, hn]
  · intro r hr
    simp only [trustedResponse, List.mem_map] at hr
    obtain ⟨s, _, rfl⟩ := hr
    exact ⟨rfl, rfl, rfl⟩

/-- C2 witness: even with a provider that would call the text AI-heavy,
`trusted_human = true` forces the verified-human response. -/
theorem detect_trusted_bypass_witness :
    isBlank "The system works well. It is efficient." = false ∧
    detectEndpoint true "The system works well. It is efficient."
        (fun _ => some { ai := 95, human := 5, reason := "SEO polish" }) =
      .ok (trustedResponse (sentenceSegments "The system works well. It is efficient.")) ∧
    (trustedResponse (sentenceSegments "The system works well. It is efficient.")).overall.verdict =
      "Human-written (Verified)" :=
  ⟨by decide,
   (detect_trusted_bypass "The system works well. It is efficient."
     (fun _ => some { ai := 95, human := 5, reason := "SEO polish" })
     (by decide) (by decide)).1,
   (detect_trusted_bypass "The system works well. It is efficient."
     (fun _ => some { ai := 95, human := 5, reason := "SEO polish" })
     (by decide) (by decide)).2.1⟩

/-! ## Claim C10: zero classifiable sentences -/

theorem runDetect_nil (provider : String → Option Judgment) :
    runDetect [] provider =
      { overall := { ai_probability := 0, human_probability := 100,
                     verdict := "Likely Human-written" },
        sentences := [] } := by
  have h0 : overallAI [] = 0 := by
    norm_num [overallAI, humanCount, aiHeavyCount, mixedCount, totalOf, jsRound,
      List.countP, List.countP.go, Int.floor_eq_iff]
  simp [runDetect, detectResults, verdictOf, h0]

/-- C10: a valid (non-blank, within the 800-word limit) `/detect` request
whose segmentation leaves no classifiable sentence still succeeds: the
divisor is clamped (`results.length || 1` = 1), the aggregator lands in
the weighted-blend branch with all counts zero, and the response is
`ai_probability = 0`, `human_probability = 100`, verdict
`"Likely Human-written"` with an empty `sentences` array. -/
theorem detect_empty_segments (text : String) (provider : String → Option Judgment)
    (h1 : isBlank text = false) (h2 : wordCount text ≤ DETECTOR_MAX_WORDS)
    (h3 : sentenceSegments text = []) :
    totalOf (List.length ([] : List ℤ)) = 1 ∧
    detectEndpoint false text provider =
      .ok { overall := { ai_probability := 0, human_probability := 100,
                         verdict := "Likely Human-written" },
            sentences := [] } := by
  refine ⟨rfl, ?_⟩
  have hn : ¬ DETECTOR_MAX_WORDS < wordCount text := by omega
  simp [detectEndpoint, h1, hn, h3, runDetect_nil]

/-- C10 witness: "Hi. No. Ok." segments into three fragments all at most 12
characters, so the detect pipeline classifies nothing and reports the
0/100 human verdict. -/
theorem detect_empty_segments_witness :
    isBlank "Hi. No. Ok." = false ∧
    sentenceSegments "Hi. No. Ok." = [] ∧
    detectEndpoint false "Hi. No. Ok." (fun _ => none) =
      .ok { overall := { ai_probability := 0, human_probability := 100,
                         verdict := "Likely Human-written" },
            sentences := [] } :=
  ⟨by decide, by decide,
   (detect_empty_segments "Hi. No. Ok." (fun _ => none)
     (by decide) (by decide) (by decide)).2⟩

/-! ## Claim C7: noise injection is the identity on short input -/

/-- C7: when the humanizer output splits on the literal `". "` into fewer
than 3 segments, `injectHumanNoise` returns it unchanged for every random
draw of filler, comma segment and ending. -/
theorem injectHumanNoise_short_input (text : String)
    (h : (splitDotSpace text.data).length < 3) :
    ∀ f i e : Nat, injectHumanNoise f i e text = text := by
  intro f i e
  simp [injectHumanNoise, h]

/-- C7 witness: a two-segment text is returned unchanged under several
distinct random draws. -/
theorem injectHumanNoise_short_input_witness :
    (splitDotSpace "It works. Nothing fancy".data).length < 3 ∧
    injectHumanNoise 0 1 1 "It works. Nothing fancy" = "It works. Nothing fancy" ∧
    injectHumanNoise 4 0 3 "It works. Nothing fancy" = "It works. Nothing fancy" :=
  ⟨by decide,
   injectHumanNoise_short_input "It works. Nothing fancy" (by decide) 0 1 1,
   injectHumanNoise_short_input "It works. Nothing fancy" (by decide) 4 0 3⟩

/-! ## Claims C1 and C4: the aggregator's escalation and suppression branches -/

theorem overallAI_nil : overallAI [] = 0 := by
  norm_num [overallAI, humanCount, aiHeavyCount, mixedCount, totalOf, jsRound,
    List.countP, List.countP.go, Int.floor_eq_iff]

theorem totalOf_pos_rat (n : Nat) : (0 : ℚ) < (totalOf n : ℚ) := by
  have h : 1 ≤ totalOf n := by unfold totalOf; split <;> omega
  exact_mod_cast Nat.lt_of_lt_of_le Nat.zero_lt_one h

theorem totalOf_of_ne_zero {n : Nat} (h : n ≠ 0) : totalOf n = n := by
  unfold totalOf; simp [h]

/-- C1 counterexample: on the spec's own example (two sentences both scored
`ai = 80`) the escalation branch applies (`human/total = 0 < 0.8`,
`ai_heavy/total = 1 ≥ 0.6`), the claimed capped value is 95, but the code
computes `round(70 + 1.0*30) = 100` — there is no `min(95, ·)` in the
escalation branch. -/
theorem overallAI_all_ai_heavy_cex :
    ¬ ((8 : ℚ)/10 ≤ (humanCount [80, 80] : ℚ) / (totalOf (List.length ([80, 80] : List ℤ)) : ℚ)) ∧
    (6 : ℚ)/10 ≤ (aiHeavyCount [80, 80] : ℚ) / (totalOf (List.length ([80, 80] : List ℤ)) : ℚ) ∧
    min 95 (jsRound (70 + (aiHeavyCount [80, 80] : ℚ) /
      (totalOf (List.length ([80, 80] : List ℤ)) : ℚ) * 30)) = 95 ∧
    overallAI [80, 80] = 100 := by
  norm_num [overallAI, humanCount, aiHeavyCount, mixedCount, totalOf, jsRound,
    List.countP, List.countP.go, Int.floor_eq_iff]

/-- C1 (amended): in the escalation branch (`human/total < 0.8` and
`ai_heavy/total ≥ 0.6`) the overall score is `round(70 + ai_heavy/total * 30)`
with no cap; it never exceeds 100, and when every judged sentence is
ai-heavy it equals exactly 100 (not 95). -/
theorem overallAI_escalation_uncapped (ais : List ℤ)
    (h1 : ¬ ((8 : ℚ)/10 ≤ (humanCount ais : ℚ) / (totalOf ais.length : ℚ)))
    (h2 : (6 : ℚ)/10 ≤ (aiHeavyCount ais : ℚ) / (totalOf ais.length : ℚ)) :
    overallAI ais = jsRound (70 + (aiHeavyCount ais : ℚ) / (totalOf ais.length : ℚ) * 30) ∧
    overallAI ais ≤ 100 ∧
    (aiHeavyCount ais = ais.length → ais ≠ [] → overallAI ais = 100) := by
  have heq : overallAI ais =
      jsRound (70 + (aiHeavyCount ais : ℚ) / (totalOf ais.length : ℚ) * 30) := by
    unfold overallAI
    rw [if_neg h1, if_pos h2]
  have htpos : (0 : ℚ) < (totalOf ais.length : ℚ) := totalOf_pos_rat _
  have hr : (aiHeavyCount ais : ℚ) / (totalOf ais.length : ℚ) ≤ 1 := by
    rw [div_le_one htpos]
    have hlen : aiHeavyCount ais ≤ ais.length := List.countP_le_length _
    have htot : ais.length ≤ totalOf ais.length := by unfold totalOf; split <;> omega
    exact_mod_cast Nat.le_trans hlen htot
  refine ⟨heq, ?_, ?_⟩
  · rw [heq]
    have hle : 70 + (aiHeavyCount ais : ℚ) / (totalOf ais.length : ℚ) * 30 + 1/2 ≤
        (201 : ℚ)/2 := by linarith
    calc jsRound (70 + (aiHeavyCount ais : ℚ) / (totalOf ais.length : ℚ) * 30)
        ≤ Int.floor ((201 : ℚ)/2) := Int.floor_le_floor hle
      _ = 100 := by norm_num
  · intro hall hne
    have h0 : ais.length ≠ 0 := by
      intro hz
      exact hne (List.length_eq_zero.mp hz)
    have ht : totalOf ais.length = ais.length := totalOf_of_ne_zero h0
    have hone : (aiHeavyCount ais : ℚ) / (totalOf ais.length : ℚ) = 1 := by
      rw [hall, ht]
      exact div_self (by exact_mod_cast h0)
    rw [heq, hone]
    norm_num [jsRound]

/-- C1 witness: the amended escalation formula evaluated at the all-ai-heavy
judgment set `[80, 80]`: the branch conditions hold concretely and the
overall score is 100. -/
theorem overallAI_escalation_uncapped_witness :
    overallAI [80, 80] =
      jsRound (70 + (aiHeavyCount [80, 80] : ℚ) /
        (totalOf (List.length ([80, 80] : List ℤ)) : ℚ) * 30) ∧
    overallAI [80, 80] ≤ 100 ∧
    (aiHeavyCount [80, 80] = List.length ([80, 80] : List ℤ) →
      ([80, 80] : List ℤ) ≠ [] → overallAI [80, 80] = 100) :=
  overallAI_escalation_uncapped [80, 80]
    (by norm_num [humanCount, totalOf, List.countP, List.countP.go])
    (by norm_num [aiHeavyCount, totalOf, List.countP, List.countP.go])

/-- C4: in the suppression branch (`human/total ≥ 0.8`) the overall score
is exactly `min(5, round(ai_heavy/total * 10))`, hence at most 5; and for
every judgment set where every sentence has `ai < 40` the overall score is
at most 5 (including the empty set, where the clamped divisor sends the
aggregator to the weighted-blend branch with value 0). -/
theorem overallAI_suppression (ais : List ℤ) :
    ((8 : ℚ)/10 ≤ (humanCount ais : ℚ) / (totalOf ais.length : ℚ) →
      overallAI ais =
        min 5 (jsRound ((aiHeavyCount ais : ℚ) / (totalOf ais.length : ℚ) * 10)) ∧
      overallAI ais ≤ 5) ∧
    ((∀ a ∈ ais, a < 40) → overallAI ais ≤ 5) := by
  have hbranch : (8 : ℚ)/10 ≤ (humanCount ais : ℚ) / (totalOf ais.length : ℚ) →
      overallAI ais =
        min 5 (jsRound ((aiHeavyCount ais : ℚ) / (totalOf ais.length : ℚ) * 10)) := by
    intro h
    unfold overallAI
    rw [if_pos h]
  refine ⟨fun h => ⟨hbranch h, ?_⟩, fun hall => ?_⟩
  · rw [hbranch h]
    exact min_le_left _ _
  · by_cases h0 : ais.length = 0
    · rw [List.length_eq_zero.mp h0, overallAI_nil]
      omega
    · have hhum : humanCount ais = ais.length := by
        rw [humanCount, List.countP_eq_length]
        intro a ha
        simpa using hall a ha
      have hcond : (8 : ℚ)/10 ≤ (humanCount ais : ℚ) / (totalOf ais.length : ℚ) := by
        rw [hhum, totalOf_of_ne_zero h0, div_self (by exact_mod_cast h0)]
        norm_num
      rw [hbranch hcond]
      calc min 5 (jsRound ((aiHeavyCount ais : ℚ) / (totalOf ais.length : ℚ) * 10)) ≤ 5 :=
        min_le_left _ _

/-- C4 witness: a concrete all-human judgment set takes the suppression
branch and lands at 0 ≤ 5. -/
theorem overallAI_suppression_witness :
    ((8 : ℚ)/10 ≤ (humanCount [10, 20, 5] : ℚ) /
        (totalOf (List.length ([10, 20, 5] : List ℤ)) : ℚ) →
      overallAI [10, 20, 5] =
        min 5 (jsRound ((aiHeavyCount [10, 20, 5] : ℚ) /
          (totalOf (List.length ([10, 20, 5] : List ℤ)) : ℚ) * 10)) ∧
      overallAI [10, 20, 5] ≤ 5) ∧
    ((∀ a ∈ ([10, 20, 5] : List ℤ), a < 40) → overallAI [10, 20, 5] ≤ 5) :=
  overallAI_suppression [10, 20, 5]

/-! ## Claim C6: noise injection adds filler/ending and drops one comma -/

theorem removeFirstCommaL_sublist (l : List Char) : List.Sublist (removeFirstCommaL l) l := by
  induction l with
  | nil => exact List.Sublist.refl _
  | cons c cs ih =>
    unfold removeFirstCommaL
    by_cases hc : c = ','
    · simp only [hc, if_pos rfl]
      exact List.sublist_cons_self _ _
    · simp only [if_neg hc]
      exact List.Sublist.cons₂ _ ih

theorem removeFirstCommaL_sublist_append (a b : List Char) :
    List.Sublist (removeFirstCommaL b) (removeFirstCommaL (a ++ b)) := by
  induction a with
  | nil => exact List.Sublist.refl _
  | cons c cs ih =>
    by_cases hc : c = ','
    · rw [show removeFirstCommaL ((c :: cs) ++ b) = cs ++ b from by
        simp [removeFirstCommaL, hc]]
      exact List.Sublist.trans (removeFirstCommaL_sublist b) (List.sublist_append_right _ _)
    · rw [show removeFirstCommaL ((c :: cs) ++ b) = c :: removeFirstCommaL (cs ++ b) from by
        simp [removeFirstCommaL, hc]]
      exact List.Sublist.trans ih (List.sublist_cons_self _ _)

theorem joinDotL_sublist_of_forall₂ {ss ts : List (List Char)}
    (h : List.Forall₂ (fun a b => List.Sublist a b) ss ts) :
    List.Sublist (joinDotL ss) (joinDotL ts) := by
  induction h with
  | nil => exact List.Sublist.refl _
  | cons hhead htail ih =>
    rename_i a b ss₂ ts₂
    cases htail with
    | nil => simpa [joinDotL] using hhead
    | cons hh2 ht2 =>
      rename_i a2 b2 ss₃ ts₃
      show List.Sublist (a ++ '.' :: ' ' :: joinDotL (a2 :: ss₃))
        (b ++ '.' :: ' ' :: joinDotL (b2 :: ts₃))
      have htl : List.Sublist (joinDotL (a2 :: ss₃)) (joinDotL (b2 :: ts₃)) := ih
      exact List.Sublist.append hhead (List.Sublist.cons₂ _ (List.Sublist.cons₂ _ htl))

theorem forall₂_sublist_refl (ss : List (List Char)) :
    List.Forall₂ (fun a b => List.Sublist a b) ss ss := by
  induction ss with
  | nil => exact List.Forall₂.nil
  | cons s t ih => exact List.Forall₂.cons (List.Sublist.refl _) ih

theorem modifyAt_nil (i : Nat) (g : List Char → List Char) : modifyAt i g [] = [] := by
  cases i <;> rfl

theorem forall₂_modifyAt_rfc (ss : List (List Char)) :
    ∀ i : Nat, List.Forall₂ (fun a b => List.Sublist a b) (modifyAt i removeFirstCommaL ss) ss := by
  induction ss with
  | nil =>
    intro i
    rw [modifyAt_nil]
    exact List.Forall₂.nil
  | cons s t ih =>
    intro i
    cases i with
    | zero => exact List.Forall₂.cons (removeFirstCommaL_sublist s) (forall₂_sublist_refl t)
    | succ j => exact List.Forall₂.cons (List.Sublist.refl s) (ih j)

theorem joinDotL_modifyAt_rfc_sublist (ss : List (List Char)) (i : Nat) :
    List.Sublist (joinDotL (modifyAt i removeFirstCommaL ss)) (joinDotL ss) :=
  joinDotL_sublist_of_forall₂ (forall₂_modifyAt_rfc ss i)

theorem joinDotL_cons_append (a s : List Char) (rest : List (List Char)) :
    joinDotL ((a ++ s) :: rest) = a ++ joinDotL (s :: rest) := by
  cases rest with
  | nil => rfl
  | cons r rs =>
    show (a ++ s) ++ '.' :: ' ' :: joinDotL (r :: rs) = a ++ (s ++ '.' :: ' ' :: joinDotL (r :: rs))
    rw [List.append_assoc]

/-- C6: on input splitting into at least 3 segments, the output of
`injectHumanNoise` decomposes as `body ++ ending` where `body` sits between
the original join with the first comma of segment `i` removed (everything
of the original segments survives, in order, up to that one comma) and the
original join with only the filler prefix added (nothing else is added).
When `i = 0` and a comma-carrying filler was drawn, the removed comma is
the filler's own, so the original content survives intact. -/
theorem injectHumanNoise_deltas (text : String) (f i e : Nat)
    (h3 : 3 ≤ (splitDotSpace text.data).length)
    (hi : i < (splitDotSpace text.data).length) :
    ∃ body : List Char,
      (injectHumanNoise f i e text).data = body ++ (endings.getD e "").data ∧
      List.Sublist (joinDotL (modifyAt i removeFirstCommaL (splitDotSpace text.data))) body ∧
      List.Sublist body (fillerPre f ++ joinDotL (splitDotSpace text.data)) := by
  have hnot : ¬ (splitDotSpace text.data).length < 3 := by omega
  by_cases hstart : (fillers.getD f "").data = []
  · refine ⟨joinDotL (modifyAt i removeFirstCommaL (splitDotSpace text.data)), ?_, ?_, ?_⟩
    · show (injectHumanNoise f i e text).data = _
      unfold injectHumanNoise
      rw [if_neg hnot, if_pos hstart]
    · exact List.Sublist.refl _
    · rw [fillerPre, if_pos hstart, List.nil_append]
      exact joinDotL_modifyAt_rfc_sublist (splitDotSpace text.data) i
  · cases hsegs : splitDotSpace text.data with
    | nil =>
      rw [hsegs] at h3
      simp at h3
    | cons s₀ rest =>
      refine ⟨joinDotL (modifyAt i removeFirstCommaL
        (((fillers.getD f "").data ++ ' ' :: s₀) :: rest)), ?_, ?_, ?_⟩
      · show (injectHumanNoise f i e text).data = _
        unfold injectHumanNoise
        rw [if_neg hnot, if_neg hstart, hsegs]
        rfl
      · cases i with
        | zero =>
          show List.Sublist (joinDotL (removeFirstCommaL s₀ :: rest))
            (joinDotL (removeFirstCommaL ((fillers.getD f "").data ++ ' ' :: s₀) :: rest))
          refine joinDotL_sublist_of_forall₂ (List.Forall₂.cons ?_ (forall₂_sublist_refl rest))
          rw [show (fillers.getD f "").data ++ ' ' :: s₀ =
            ((fillers.getD f "").data ++ [' ']) ++ s₀ from by simp]
          exact removeFirstCommaL_sublist_append _ s₀
        | succ j =>
          show List.Sublist (joinDotL (s₀ :: modifyAt j removeFirstCommaL rest))
            (joinDotL (((fillers.getD f "").data ++ ' ' :: s₀) :: modifyAt j removeFirstCommaL rest))
          refine joinDotL_sublist_of_forall₂ (List.Forall₂.cons ?_ (forall₂_sublist_refl _))
          rw [show (fillers.getD f "").data ++ ' ' :: s₀ =
            ((fillers.getD f "").data ++ [' ']) ++ s₀ from by simp]
          exact List.sublist_append_right _ _
      · have heq : joinDotL (((fillers.getD f "").data ++ ' ' :: s₀) :: rest) =
            fillerPre f ++ joinDotL (s₀ :: rest) := by
          rw [fillerPre, if_neg hstart]
          rw [show (fillers.getD f "").data ++ ' ' :: s₀ =
            ((fillers.getD f "").data ++ [' ']) ++ s₀ from by simp]
          exact joinDotL_cons_append _ s₀ rest
        rw [← heq]
        exact joinDotL_modifyAt_rfc_sublist _ i

/-- C6 witness: a concrete three-segment input with comma removal on the
filler-prefixed first segment. -/
theorem injectHumanNoise_deltas_witness :
    3 ≤ (splitDotSpace "Ab,c. De,f. Ghi".data).length ∧
    0 < (splitDotSpace "Ab,c. De,f. Ghi".data).length ∧
    ∃ body : List Char,
      (injectHumanNoise 0 0 1 "Ab,c. De,f. Ghi").data = body ++ (endings.getD 1 "").data ∧
      List.Sublist (joinDotL (modifyAt 0 removeFirstCommaL
        (splitDotSpace "Ab,c. De,f. Ghi".data))) body ∧
      List.Sublist body (fillerPre 0 ++ joinDotL (splitDotSpace "Ab,c. De,f. Ghi".data)) :=
  ⟨by decide, by decide,
   injectHumanNoise_deltas "Ab,c. De,f. Ghi" 0 0 1 (by decide) (by decide)⟩

/-! ## Claim C9: the sentence segmenter -/

theorem head?_append_left {α : Type} (l₁ l₂ : List α) (h : l₁ ≠ []) :
    (l₁ ++ l₂).head? = l₁.head? := by
  cases l₁ with
  | nil => exact absurd rfl h
  | cons a t => rfl

theorem dropWhile_length_le (p : Char → Bool) : ∀ l : List Char,
    (l.dropWhile p).length ≤ l.length := by
  intro l
  induction l with
  | nil => simp [List.dropWhile]
  | cons a t ih =>
    by_cases hp : p a
    · rw [show (a :: t).dropWhile p = t.dropWhile p from by simp [List.dropWhile, hp]]
      simp [List.length_cons]
      omega
    · rw [show (a :: t).dropWhile p = a :: t from by simp [List.dropWhile, hp]]

theorem head_dropWhile_false (p : Char → Bool) : ∀ (l : List Char) (ch : Char),
    (l.dropWhile p).head? = some ch → p ch = false := by
  intro l
  induction l with
  | nil =>
    intro ch h
    simp [List.dropWhile] at h
  | cons a t ih =>
    intro ch h
    by_cases hp : p a
    · rw [show (a :: t).dropWhile p = t.dropWhile p from by simp [List.dropWhile, hp]] at h
      exact ih ch h
    · rw [show (a :: t).dropWhile p = a :: t from by simp [List.dropWhile, hp]] at h
      have hac : a = ch := by simpa using h
      subst hac
      simpa using hp

theorem mem_takeWhile_prop (p : Char → Bool) : ∀ (l : List Char) (ch : Char),
    ch ∈ l.takeWhile p → p ch = true := by
  intro l
  induction l with
  | nil =>
    intro ch h
    simp [List.takeWhile] at h
  | cons a t ih =>
    intro ch h
    by_cases hp : p a
    · rw [show (a :: t).takeWhile p = a :: t.takeWhile p from by simp [List.takeWhile, hp]] at h
      rcases List.mem_cons.mp h with h | h
      · subst h; exact hp
      · exact ih ch h
    · rw [show (a :: t).takeWhile p = [] from by simp [List.takeWhile, hp]] at h
      simp at h

theorem lastIsPunct_append_single : ∀ (ys : List Char) (c : Char),
    lastIsPunct (ys ++ [c]) = isPunctC c := by
  intro ys
  induction ys with
  | nil => intro c; rfl
  | cons a t ih =>
    intro c
    cases t with
    | nil => rfl
    | cons b t2 => exact ih c

theorem lastIsPunct_reverse (cur : List Char) : lastIsPunct cur.reverse = headIsPunct cur := by
  cases cur with
  | nil => rfl
  | cons c t =>
    rw [List.reverse_cons, lastIsPunct_append_single]
    rfl

theorem hasBoundary_append_single : ∀ (xs : List Char) (c : Char),
    hasBoundary (xs ++ [c]) = (hasBoundary xs || (lastIsPunct xs && c.isWhitespace)) := by
  intro xs
  induction xs with
  | nil =>
    intro c
    simp [hasBoundary, lastIsPunct]
  | cons a t ih =>
    intro c
    cases t with
    | nil => simp [hasBoundary, lastIsPunct]
    | cons b t2 =>
      show ((isPunctC a && b.isWhitespace) || hasBoundary ((b :: t2) ++ [c])) = _
      rw [ih c]
      show _ = ((isPunctC a && b.isWhitespace || hasBoundary (b :: t2)) ||
        (lastIsPunct (b :: t2) && c.isWhitespace))
      rw [Bool.or_assoc]

theorem hasBoundary_push (cur : List Char) (c : Char)
    (h1 : hasBoundary cur.reverse = false)
    (h2 : (c.isWhitespace && headIsPunct cur) = false) :
    hasBoundary (cur.reverse ++ [c]) = false := by
  rw [hasBoundary_append_single, h1, lastIsPunct_reverse]
  cases hcw : c.isWhitespace <;> cases hhp : headIsPunct cur <;> simp_all

theorem segStep_none_eq (l : List Char) :
    segStep none l = segStep (some []) (l.dropWhile Char.isWhitespace) := by
  induction l with
  | nil => rfl
  | cons c rest ih =>
    by_cases hw : c.isWhitespace
    · rw [show segStep none (c :: rest) = segStep none rest from by simp [segStep, hw]]
      rw [ih]
      rw [show (c :: rest).dropWhile Char.isWhitespace = rest.dropWhile Char.isWhitespace from by
        simp [List.dropWhile, hw]]
    · have hw' : c.isWhitespace = false := by simpa using hw
      rw [show segStep none (c :: rest) = segStep (some [c]) rest from by simp [segStep, hw']]
      rw [show (c :: rest).dropWhile Char.isWhitespace = c :: rest from by
        simp [List.dropWhile, hw']]
      rw [show segStep (some []) (c :: rest) = segStep (some [c]) rest from by
        simp [segStep, hw', headIsPunct]]

theorem segStep_splitOk (n : Nat) :
    ∀ l : List Char, l.length ≤ n →
    ∀ cur : List Char, hasBoundary cur.reverse = false →
    SplitOk (cur.reverse ++ l) (segStep (some cur) l) := by
  induction n with
  | zero =>
    intro l hl cur hcur
    have hnil : l = [] := by
      cases l with
      | nil => rfl
      | cons c rest => simp at hl
    subst hnil
    rw [List.append_nil]
    exact SplitOk.last _ hcur
  | succ n ih =>
    intro l hl cur hcur
    cases l with
    | nil =>
      rw [List.append_nil]
      exact SplitOk.last _ hcur
    | cons c rest =>
      by_cases hsplit : (c.isWhitespace && headIsPunct cur) = true
      · have hw : c.isWhitespace = true := (Bool.and_eq_true _ _).mp hsplit |>.1
        have hp : headIsPunct cur = true := (Bool.and_eq_true _ _).mp hsplit |>.2
        rw [show segStep (some cur) (c :: rest) = cur.reverse :: segStep none rest from by
          simp [segStep, hsplit]]
        rw [segStep_none_eq rest]
        rw [show cur.reverse ++ (c :: rest) =
            cur.reverse ++ ((c :: rest.takeWhile Char.isWhitespace) ++
              rest.dropWhile Char.isWhitespace) from by
          rw [show (c :: rest.takeWhile Char.isWhitespace) ++ rest.dropWhile Char.isWhitespace =
            c :: rest from by simp [List.takeWhile_append_dropWhile]]]
        refine SplitOk.cons _ _ _ _ hcur ?_ ?_ ?_ ?_
        · rw [lastIsPunct_reverse]
          exact hp
        · refine ⟨by simp, ?_⟩
          intro ch hch
          rcases List.mem_cons.mp hch with h | h
          · subst h; exact hw
          · exact mem_takeWhile_prop _ _ _ h
        · intro ch hch
          exact head_dropWhile_false _ _ _ hch
        · have hlen : (rest.dropWhile Char.isWhitespace).length ≤ n := by
            have h1 := dropWhile_length_le Char.isWhitespace rest
            have h2 : rest.length + 1 ≤ n + 1 := by simpa [List.length_cons] using hl
            omega
          have hmain := ih (rest.dropWhile Char.isWhitespace) hlen [] rfl
          simpa using hmain
      · have hsplit' : (c.isWhitespace && headIsPunct cur) = false := by simpa using hsplit
        rw [show segStep (some cur) (c :: rest) = segStep (some (c :: cur)) rest from by
          simp [segStep, hsplit']]
        have hcur' : hasBoundary (c :: cur).reverse = false := by
          rw [List.reverse_cons]
          exact hasBoundary_push cur c hcur hsplit'
        have hlen : rest.length ≤ n := by
          have h2 : rest.length + 1 ≤ n + 1 := by simpa [List.length_cons] using hl
          omega
        have hmain := ih rest hlen (c :: cur) hcur'
        rw [List.reverse_cons, List.append_assoc] at hmain
        simpa using hmain

theorem rawSegs_splitOk (l : List Char) : SplitOk l (rawSegs l) := by
  have hmain := segStep_splitOk l.length l (Nat.le_refl _) [] rfl
  simpa using hmain

theorem trimChars_last_not_ws (raw : List Char) (c : Char)
    (h : (trimChars raw).getLast? = some c) : c.isWhitespace = false := by
  unfold trimChars at h
  rw [List.getLast?_reverse] at h
  exact head_dropWhile_false _ _ _ h

theorem trimChars_head_not_ws (raw : List Char) (c : Char)
    (h : (trimChars raw).head? = some c) : c.isWhitespace = false := by
  unfold trimChars at h
  set y := raw.dropWhile Char.isWhitespace with hy
  set z := y.reverse.dropWhile Char.isWhitespace with hz
  have hyz : y = z.reverse ++ (y.reverse.takeWhile Char.isWhitespace).reverse := by
    calc y = y.reverse.reverse := (List.reverse_reverse y).symm
      _ = (y.reverse.takeWhile Char.isWhitespace ++ z).reverse := by
          rw [List.takeWhile_append_dropWhile]
      _ = z.reverse ++ (y.reverse.takeWhile Char.isWhitespace).reverse :=
          List.reverse_append _ _
  have hznil : z.reverse ≠ [] := by
    intro hnil
    rw [hnil] at h
    simp at h
  have hhead : y.head? = some c := by
    rw [hyz, head?_append_left _ _ hznil]
    exact h
  exact head_dropWhile_false _ _ _ hhead

/-- C9: the detect pipeline's sentence segmenter. (1) Empty input yields the
empty sequence. (2) For every text, the raw split is sound and exact
(`SplitOk`): the segments joined with the consumed whitespace runs rebuild
the text in order, every cut happens right after a `.`, `!` or `?` followed
by whitespace (punctuation stays attached to the preceding segment), the
whole whitespace run is consumed, and no segment retains an internal
boundary — so the split happens at exactly those boundaries. (3) Every kept
segment is trimmed (no whitespace at either end) and longer than the
12-character threshold — shorter fragments are discarded. -/
theorem sentence_segmenter_spec (text : String) :
    sentenceSegments "" = [] ∧
    SplitOk text.data (rawSegs text.data) ∧
    ∀ s ∈ sentenceSegments text, 12 < s.data.length ∧
      (∀ c, s.data.head? = some c → c.isWhitespace = false) ∧
      (∀ c, s.data.getLast? = some c → c.isWhitespace = false) := by
  refine ⟨by decide, rawSegs_splitOk text.data, ?_⟩
  intro s hs
  unfold sentenceSegments at hs
  rw [List.mem_filter] at hs
  obtain ⟨hmem, hlen⟩ := hs
  rw [List.mem_map] at hmem
  obtain ⟨raw, _, rfl⟩ := hmem
  exact ⟨by simpa using hlen,
    fun c hc => trimChars_head_not_ws raw c hc,
    fun c hc => trimChars_last_not_ws raw c hc⟩
